import Mathlib

/-!
Shallow embedding of the mexc-runtime signal-to-order pipeline.

Sources embedded here:
- internal/risk/manager.go       (SimpleManager: Evaluate, RecordExecution, resetDay)
- internal/signal/parser.go      (Parser.resolvePair and the symbol derivation in Parser.Parse)
- engine (same file)             (Engine.HandleMessage control flow, Engine.resolveNotional)
- internal/exchange/mexc/executor.go (Submit dispatch, submitSpot response interpretation,
                                      canonicalQuery, request body construction)
- config (same file)             (Config.Validate market_type check)

Modelling conventions:
- Go time.Time instants are Int nanoseconds since the Go zero time; the zero value is 0,
  so time.Time.IsZero() becomes an equality with 0, time.Truncate(24h) becomes flooring
  to a multiple of the day length, and time.Sub is Int subtraction.
- Go float64 notionals are modelled as rationals; the code only copies and compares
  them (no rounding arithmetic), so the comparisons are exact.
- Go maps are association lists with overwrite-on-insert semantics; a map literal from
  Go cannot contain duplicate keys, which appears below as Nodup hypotheses.
- Go strings are Lean Strings, or List Char where character-level rewriting is embedded.
  strings.ToUpper is mapped Char.toUpper (ASCII case mapping, which is what the
  pair codes and separators exercised by the parser consist of).
-/

namespace risk

/-- Nanoseconds per second (Go time.Second). -/
def nsPerSecond : Int := 1000000000

/-- Nanoseconds per day (Go 24 * time.Hour). -/
def nsPerDay : Int := 86400 * nsPerSecond

/-- now.UTC().Truncate(24 * time.Hour): round down to a multiple of 24h since the
Go zero time. -/
def truncDay (t : Int) : Int := nsPerDay * (Int.fdiv t nsPerDay)

/-- RiskConfig fields used by SimpleManager (config.RiskConfig). -/
structure RiskConfig where
  cooldownSeconds : Int
  maxDailyTrades : Int
  deriving DecidableEq, Repr

/-- Association-list lookup, modelling a Go map read. -/
def lookupKey {β : Type} : List (String × β) → String → Option β
  | [], _ => none
  | (k2, v) :: rest, k => if k2 = k then some v else lookupKey rest k

/-- Association-list insert/overwrite, modelling a Go map write. -/
def mapSet {β : Type} : List (String × β) → String → β → List (String × β)
  | [], k, v => [(k, v)]
  | (k2, v2) :: rest, k, v =>
    if k2 = k then (k, v) :: rest else (k2, v2) :: mapSet rest k v

/-- Mutable state of SimpleManager (lastTrade map, dailyTrades, dayAnchor). -/
structure RiskState where
  lastTrade : List (String × Int)
  dailyTrades : Int
  dayAnchor : Int
  deriving DecidableEq, Repr

/-- NewSimpleManager: empty map, zero counter, zero day anchor. -/
def initState : RiskState := { lastTrade := [], dailyTrades := 0, dayAnchor := 0 }

/-- Decision (risk.Decision): allow flag, deny reason, approved notional. -/
structure Decision where
  Allow : Bool
  Reason : String
  Notional : ℚ
  deriving DecidableEq, Repr

/-- SimpleManager.resetDay: anchor on first observation, otherwise clear the
counter and the cooldown map when the UTC day advanced past the anchor. -/
def resetDay (st : RiskState) (now : Int) : RiskState :=
  if st.dayAnchor = 0 then
    { st with dayAnchor := truncDay now }
  else
    let currentDay := truncDay now
    if currentDay > st.dayAnchor then
      { dayAnchor := currentDay, dailyTrades := 0, lastTrade := [] }
    else st

/-- The cooldown test inside SimpleManager.Evaluate: a configured positive
cooldown and a recorded last trade within the window. -/
def cooldownBlocked (cfg : RiskConfig) (st : RiskState) (now : Int) (symbol : String) : Bool :=
  if cfg.cooldownSeconds > 0 then
    match lookupKey st.lastTrade symbol with
    | some last => decide (now - last < cfg.cooldownSeconds * nsPerSecond)
    | none => false
  else false

/-- SimpleManager.Evaluate. The Go method also returns an error that is always
nil; the state component is the post-call state (resetDay may mutate it).
The non-positive-notional check precedes the lock/resetDay, so the state is
returned untouched on that branch. -/
def Evaluate (cfg : RiskConfig) (st : RiskState) (now : Int) (symbol : String)
    (desiredNotional : ℚ) : Decision × RiskState :=
  if desiredNotional ≤ 0 then
    ({ Allow := false, Reason := "non-positive notional", Notional := 0 }, st)
  else
    let st1 := resetDay st now
    if cooldownBlocked cfg st1 now symbol then
      ({ Allow := false, Reason := "cooldown_active", Notional := 0 }, st1)
    else if cfg.maxDailyTrades > 0 ∧ st1.dailyTrades ≥ cfg.maxDailyTrades then
      ({ Allow := false, Reason := "daily_trade_limit", Notional := 0 }, st1)
    else
      ({ Allow := true, Reason := "", Notional := desiredNotional }, st1)

/-- SimpleManager.RecordExecution: reconcile the day boundary, stamp the symbol,
bump the daily counter. The executed notional is only logged. -/
def RecordExecution (st : RiskState) (now : Int) (symbol : String)
    (executedNotional : ℚ) : RiskState :=
  let st1 := resetDay st now
  { st1 with lastTrade := mapSet st1.lastTrade symbol now,
             dailyTrades := st1.dailyTrades + 1 }

end risk

/-- Decidable equality for Except results, used to evaluate the embedded
functions on concrete inputs. -/
instance exceptDecEq {e a : Type} [DecidableEq e] [DecidableEq a] :
    DecidableEq (Except e a) := fun x y =>
  match x, y with
  | .error v, .error w =>
    if h : v = w then isTrue (by rw [h]) else isFalse (fun hc => by cases hc; exact h rfl)
  | .ok v, .ok w =>
    if h : v = w then isTrue (by rw [h]) else isFalse (fun hc => by cases hc; exact h rfl)
  | .error _, .ok _ => isFalse (fun hc => by cases hc)
  | .ok _, .error _ => isFalse (fun hc => by cases hc)

namespace signal

/-- strings.ToUpper restricted to the ASCII case mapping (the character set the
parser's pair fields and separators consist of). -/
def goToUpper (s : List Char) : List Char := s.map Char.toUpper

/-- strings.Contains: pat occurs as a contiguous substring of s (an empty pat
is always contained). -/
def strContains : List Char → List Char → Bool
  | [], pat => pat.isEmpty
  | c :: t, pat => pat.isPrefixOf (c :: t) || strContains t pat

/-- Worker for strings.ReplaceAll with a non-empty pattern: replace
non-overlapping occurrences of old left to right. -/
def replaceAllAux (old new : List Char) : List Char → List Char
  | [] => []
  | c :: t =>
    if old.isPrefixOf (c :: t) && !old.isEmpty then
      new ++ replaceAllAux old new (t.drop (old.length - 1))
    else c :: replaceAllAux old new t
termination_by s => s.length
decreasing_by
  · simp only [List.length_cons, List.length_drop]
    omega
  · simp only [List.length_cons]
    omega

/-- strings.ReplaceAll(s, old, new): for an empty old, Go inserts new before
every rune and after the last one; otherwise non-overlapping left-to-right
replacement. -/
def replaceAll (s old new : List Char) : List Char :=
  if old.isEmpty then new ++ s.flatMap (fun c => c :: new)
  else replaceAllAux old new s

/-- strings.Trim(s, cutset): strip leading and trailing cutset characters. -/
def trimBoth (s cut : List Char) : List Char :=
  ((s.dropWhile cut.contains).reverse.dropWhile cut.contains).reverse

/-- strings.TrimPrefix. -/
def trimPre (s pre : List Char) : List Char :=
  if pre.isPrefixOf s then s.drop pre.length else s

/-- Parse/resolvePair failure values (errMissingSymbol, errInvalidSeparator,
and the formatted pair-does-not-contain-separator error). -/
inductive ParseErr where
  | missingSymbol
  | invalidSeparator
  | separatorNotFound
  deriving DecidableEq, Repr

/-- The ParserConfig fields consumed by resolvePair and the symbol derivation
(RequiredTokens and LinkHost feed requireTokens/extractLink, which happen
before the portion embedded here). -/
structure ParserConfigM where
  LinkPathPfx : List Char
  PairSeparator : List Char
  deriving DecidableEq, Repr

/-- Signal (signal.Signal): canonical symbol plus the raw pair code. The
back-reference to the raw message carries no parsing content and is omitted. -/
structure Signal where
  Symbol : List Char
  PairCode : List Char
  deriving DecidableEq, Repr

/-- Parser.resolvePair, applied to the target link's path: strip the configured
path prefix, reject an empty remainder, trim slashes, reject an empty
separator, uppercase, require the (uppercased) separator to occur, then
normalize hyphens and the URL-encoded underscore "%5F" to the separator. -/
def resolvePair (cfg : ParserConfigM) (path : List Char) : Except ParseErr (List Char) :=
  let raw := trimPre path cfg.LinkPathPfx
  if raw = [] then .error .missingSymbol
  else
    let raw2 := trimBoth raw ['/']
    let sep := cfg.PairSeparator
    if sep = [] then .error .invalidSeparator
    else
      let upper := goToUpper raw2
      if strContains upper (goToUpper sep) = false then .error .separatorNotFound
      else
        let upper2 := replaceAll upper ['-'] sep
        .ok (replaceAll upper2 ['%', '5', 'F'] sep)

/-- The tail of Parser.Parse once the target link has been extracted
(extractLink, which does net/url parsing over the message text, supplies the
link whose path is the argument here): resolve the pair code, derive the
symbol by deleting every separator occurrence, reject an empty symbol, and
return the uppercased pair code alongside it. -/
def parseFromPath (cfg : ParserConfigM) (path : List Char) : Except ParseErr Signal :=
  match resolvePair cfg path with
  | .error e => .error e
  | .ok pairCode =>
    let symbol := goToUpper (replaceAll pairCode cfg.PairSeparator [])
    if symbol = [] then .error .missingSymbol
    else .ok { Symbol := symbol, PairCode := goToUpper pairCode }

end signal

namespace exchange

/-- exchange.OrderAck: order identifier plus the exchange-reported submission
time (held as the transactTime epoch milliseconds it is built from). -/
structure OrderAck where
  OrderID : String
  SubmittedAt : Int
  deriving DecidableEq, Repr

end exchange

namespace engine

/-- Outcome of Engine.HandleMessage: nil, or a wrapped error. -/
inductive HandleResult where
  | ok
  | err (msg : String)
  deriving DecidableEq, Repr

/-- Engine.HandleMessage's control flow, with the three collaborator calls
(parser.Parse, risk.Evaluate, executor.Submit) abstracted into their results.
The second component counts how many times risk.RecordExecution runs during
the call (the call site at the end of the success path is the only one). A
risk denial logs and returns nil; parse, evaluate and submit failures return
wrapped errors. -/
def handleMessage (parseRes : Except String String)
    (evalRes : Except String risk.Decision)
    (submitRes : Except String exchange.OrderAck) : HandleResult × Nat :=
  match parseRes with
  | .error e => (.err ("parse signal: " ++ e), 0)
  | .ok _symbol =>
    match evalRes with
    | .error e => (.err ("risk evaluation failed: " ++ e), 0)
    | .ok decision =>
      if !decision.Allow then (.ok, 0)
      else
        match submitRes with
        | .error e => (.err ("order submission failed: " ++ e), 0)
        | .ok _ack => (.ok, 1)

/-- The TradingConfig fields Engine.resolveNotional reads. -/
structure TradingConfig where
  DefaultBaseNotional : ℚ
  MaxNotional : ℚ
  deriving DecidableEq, Repr

/-- config.AssetConfig (a per-symbol target override). -/
structure AssetConfig where
  MaxNotional : ℚ
  DefaultBaseNotional : ℚ
  deriving DecidableEq, Repr

/-- Engine.resolveNotional: start from the global default, take an override's
default when positive, clamp to the override's positive max, then clamp to the
global max. -/
def resolveNotional (trading : TradingConfig)
    (overrides : List (String × AssetConfig)) (symbol : String) : ℚ :=
  let size := trading.DefaultBaseNotional
  match risk.lookupKey overrides symbol with
  | some ov =>
    let size := if ov.DefaultBaseNotional > 0 then ov.DefaultBaseNotional else size
    let size := if ov.MaxNotional > 0 ∧ size > ov.MaxNotional then ov.MaxNotional else size
    if size > trading.MaxNotional then trading.MaxNotional else size
  | none =>
    if size > trading.MaxNotional then trading.MaxNotional else size

end engine

namespace mexc

/-- The decoded JSON order payload (orderResponse). The non-200 error decoding
(mexcError) reads the Code/Msg fields of the same JSON document. -/
structure orderResponse where
  Symbol : String := ""
  OrderID : String := ""
  ClientOrderID : String := ""
  TransactTime : Int := 0
  Code : Int := 0
  Msg : String := ""
  deriving DecidableEq, Repr

/-- The response-interpretation tail of Executor.submitSpot, as a function of
the transport status code and the decoded body (none models an undecodable
body). A non-200 status is a rejection carrying the decoded code/message or
the raw status; a 200 status with an embedded Code other than 0 or 200 is a
rejection; otherwise the acknowledgement is built from orderId and
transactTime. -/
def interpretSpotResponse (statusCode : Int) (body : Option orderResponse) :
    Except String exchange.OrderAck :=
  if statusCode ≠ 200 then
    match body with
    | none => .error ("order rejected status " ++ toString statusCode)
    | some b => .error ("order rejected: " ++ b.Msg ++ " (" ++ toString b.Code ++ ")")
  else
    match body with
    | none => .error "decode order response"
    | some p =>
      if p.Code ≠ 0 ∧ p.Code ≠ 200 then
        .error ("order error: " ++ p.Msg ++ " (" ++ toString p.Code ++ ")")
      else
        .ok { OrderID := p.OrderID, SubmittedAt := p.TransactTime }

/-- Executor.Submit: dispatch on the configured market type. Only "spot"
reaches submitSpot (whose network exchange is abstracted into the response
arguments); anything else returns the not-yet-supported error before any
request is built. -/
def Submit (market : String) (statusCode : Int) (body : Option orderResponse) :
    Except String exchange.OrderAck :=
  if market = "spot" then interpretSpotResponse statusCode body
  else .error ("market " ++ market ++ " not yet supported")

/-- Uppercase hexadecimal digit, as url.QueryEscape emits. -/
def hexDigit (n : Nat) : Char := "0123456789ABCDEF".data.getD n '0'

/-- The characters url.QueryEscape leaves unescaped in a query component:
alphanumerics and -_.~ (space becomes '+', handled by the caller). -/
def unescapedChar (c : Char) : Bool :=
  c.isAlphanum || c = '-' || c = '_' || c = '.' || c = '~'

/-- url.QueryEscape on one ASCII character. -/
def queryEscapeChar (c : Char) : List Char :=
  if c = ' ' then ['+']
  else if unescapedChar c then [c]
  else ['%', hexDigit (c.toNat / 16), hexDigit (c.toNat % 16)]

/-- url.QueryEscape over an ASCII string (percent-encoding works byte-wise and
the executor's parameters are ASCII). -/
def queryEscape (s : String) : String := ⟨s.data.flatMap queryEscapeChar⟩

/-- Reading a parameter back out of the set (params[k] in the Go map). -/
def lookupParam (params : List (String × String)) (k : String) : String :=
  match risk.lookupKey params k with
  | some v => v
  | none => ""

/-- canonicalQuery: collect the map's keys, sort them, and let url.Values
Encode them as escape(k)=escape(v) joined by '&' (url.Values.Encode itself
iterates keys in sorted order). The parameter map is modelled as its
key/value pairs in some iteration order. -/
def canonicalQuery (params : List (String × String)) : String :=
  let keys := params.map Prod.fst
  let sorted := keys.mergeSort
  String.intercalate "&" (sorted.map fun k => queryEscape k ++ "=" ++ queryEscape (lookupParam params k))

/-- The signed form body built in submitSpot: canonicalQuery plus the
signature of exactly that canonical string. The signing function (HMAC-SHA256
keyed by the account secret, hex-encoded) enters as a parameter: every
property proved below holds for every deterministic signer, in particular for
Executor.sign. -/
def requestBody (signFn : String → String) (params : List (String × String)) : String :=
  canonicalQuery params ++ "&signature=" ++ signFn (canonicalQuery params)

end mexc

namespace config

/-- The market_type arm of Config.Validate: both "spot" and "futures" pass
startup validation. -/
def marketTypeValid (mt : String) : Bool := mt = "spot" || mt = "futures"

end config

namespace risk

theorem lookupKey_mapSet_self {β : Type} (m : List (String × β)) (k : String) (v : β) :
    lookupKey (mapSet m k v) k = some v := by
  induction m with
  | nil => simp [mapSet, lookupKey]
  | cons hd tl ih =>
    obtain ⟨k2, v2⟩ := hd
    by_cases h : k2 = k
    · simp [mapSet, lookupKey, h]
    · simp [mapSet, lookupKey, h, ih]

theorem lookupKey_mapSet_ne {β : Type} (m : List (String × β)) (k k2 : String) (v : β)
    (h : k2 ≠ k) : lookupKey (mapSet m k v) k2 = lookupKey m k2 := by
  induction m with
  | nil => simp [mapSet, lookupKey, Ne.symm h]
  | cons hd tl ih =>
    obtain ⟨k3, v3⟩ := hd
    by_cases h3 : k3 = k
    · subst h3
      simp [mapSet, lookupKey, Ne.symm h]
    · by_cases h2 : k3 = k2
      · simp [mapSet, lookupKey, h3, h2, h]
      · simp [mapSet, lookupKey, h3, h2, ih]

theorem resetDay_of_anchor_eq (st : RiskState) (t : Int) (h : st.dayAnchor = truncDay t) :
    resetDay st t = st := by
  obtain ⟨lt, dt, da⟩ := st
  simp only [resetDay] at *
  by_cases h0 : da = 0
  · simp_all
  · simp_all

end risk

namespace signal

theorem toUpper_idem (c : Char) : c.toUpper.toUpper = c.toUpper := by
  by_cases h : c.toNat ≥ 97 ∧ c.toNat ≤ 122
  · have h1 : 97 ≤ c.toNat := h.1
    have h2 : c.toNat ≤ 122 := h.2
    have hup : c.toUpper = Char.ofNat (c.toNat - 32) := by
      unfold Char.toUpper
      simp [h]
    rw [hup]
    generalize c.toNat = n at h1 h2
    interval_cases n <;> decide
  · have hup : c.toUpper = c := by
      unfold Char.toUpper
      simp [h]
    rw [hup, hup]

theorem mem_replaceAllAux {old new : List Char} {c : Char} :
    ∀ {s : List Char}, c ∈ replaceAllAux old new s → c ∈ s ∨ c ∈ new := by
  intro s
  induction s using replaceAllAux.induct old new with
  | case1 => simp [replaceAllAux]
  | case2 ch t hpre ih =>
    rw [replaceAllAux, if_pos hpre]
    intro h
    rcases List.mem_append.mp h with h1 | h2
    · exact Or.inr h1
    · rcases ih h2 with h3 | h4
      · exact Or.inl (List.mem_cons_of_mem _ (List.mem_of_mem_drop h3))
      · exact Or.inr h4
  | case3 ch t hpre ih =>
    rw [replaceAllAux, if_neg hpre]
    intro h
    rcases List.mem_cons.mp h with h1 | h2
    · exact Or.inl (h1 ▸ List.mem_cons_self _ _)
    · rcases ih h2 with h3 | h4
      · exact Or.inl (List.mem_cons_of_mem _ h3)
      · exact Or.inr h4

theorem mem_replaceAll {s old new : List Char} {c : Char} (h : c ∈ replaceAll s old new) :
    c ∈ s ∨ c ∈ new := by
  unfold replaceAll at h
  by_cases he : old.isEmpty
  · rw [if_pos he] at h
    rcases List.mem_append.mp h with h1 | h2
    · exact Or.inr h1
    · rcases List.mem_flatMap.mp h2 with ⟨d, hd, hcd⟩
      rcases List.mem_cons.mp hcd with h3 | h4
      · exact Or.inl (h3 ▸ hd)
      · exact Or.inr h4
  · rw [if_neg he] at h
    exact mem_replaceAllAux h

theorem fixed_of_map_eq {f : Char → Char} :
    ∀ {l : List Char}, List.map f l = l → ∀ c ∈ l, f c = c := by
  intro l
  induction l with
  | nil => simp
  | cons a t ih =>
    intro h c hc
    simp only [List.map_cons, List.cons.injEq] at h
    rcases List.mem_cons.mp hc with h1 | h2
    · exact h1 ▸ h.1
    · exact ih h.2 c h2

theorem goToUpper_fixed_mem {s : List Char} {c : Char} (h : c ∈ goToUpper s) :
    c.toUpper = c := by
  rcases List.mem_map.mp h with ⟨d, _, rfl⟩
  exact toUpper_idem d

theorem goToUpper_of_fixed {s : List Char} (h : ∀ c ∈ s, c.toUpper = c) :
    goToUpper s = s :=
  (List.map_congr_left h).trans (List.map_id _)

theorem goToUpper_idem (s : List Char) : goToUpper (goToUpper s) = goToUpper s :=
  goToUpper_of_fixed (fun _ hc => goToUpper_fixed_mem hc)

theorem resolvePair_ok {cfg : ParserConfigM} {path pc : List Char}
    (h : resolvePair cfg path = .ok pc) :
    pc = replaceAll
      (replaceAll (goToUpper (trimBoth (trimPre path cfg.LinkPathPfx) ['/']))
        ['-'] cfg.PairSeparator)
      ['%', '5', 'F'] cfg.PairSeparator := by
  simp only [resolvePair] at h
  split_ifs at h <;> simp_all

theorem resolvePair_chars_fixed {cfg : ParserConfigM} {path pc : List Char}
    (hsep : goToUpper cfg.PairSeparator = cfg.PairSeparator)
    (h : resolvePair cfg path = .ok pc) :
    ∀ c ∈ pc, c.toUpper = c := by
  intro c hc
  rw [resolvePair_ok h] at hc
  have hsepc : ∀ d ∈ cfg.PairSeparator, d.toUpper = d := fixed_of_map_eq hsep
  rcases mem_replaceAll hc with h1 | h2
  · rcases mem_replaceAll h1 with h3 | h4
    · exact goToUpper_fixed_mem h3
    · exact hsepc c h4
  · exact hsepc c h2

end signal

/-- C5: the fail-fast branch of SimpleManager.Evaluate. For any non-positive
desired notional the decision is a deny, before any cooldown or daily-limit
check (the state is returned untouched, whatever cooldown or daily data it
holds). The deny reason produced by the code is the literal
"non-positive notional", not the spec's "non_positive_notional". -/
theorem claimC5 (cfg : risk.RiskConfig) (st : risk.RiskState) (now : Int)
    (symbol : String) (n : ℚ) (h : n ≤ 0) :
    risk.Evaluate cfg st now symbol n =
      ({ Allow := false, Reason := "non-positive notional", Notional := 0 }, st) := by
  simp [risk.Evaluate, h]

/-- C5 witness: the fail-fast deny evaluated on a concrete state and notional. -/
theorem claimC5_witness :
    risk.Evaluate ⟨60, 3⟩ risk.initState 7 "BTCUSDT" 0 =
      ({ Allow := false, Reason := "non-positive notional", Notional := 0 }, risk.initState) :=
  claimC5 ⟨60, 3⟩ risk.initState 7 "BTCUSDT" 0 (by norm_num)

/-- C5 counterexample: at a concrete non-positive notional the deny reason the
code produces differs from the reason code "non_positive_notional" stated in
the claim. -/
theorem claimC5_counterexample :
    (risk.Evaluate ⟨60, 3⟩ risk.initState 7 "BTCUSDT" (-1)).1 =
      { Allow := false, Reason := "non-positive notional", Notional := 0 } ∧
    "non-positive notional" ≠ "non_positive_notional" := by
  constructor
  · rfl
  · decide

/-- C4 counterexample: with cooldown = 60s, an execution recorded 30s before a
UTC midnight and an Evaluate 10s after that midnight are only 40s apart, yet
the evaluation is allowed: the day rollover inside Evaluate clears the
per-symbol timestamps before the cooldown check, so no cooldown fires. -/
theorem claimC4_counterexample :
    (101 * risk.nsPerDay + 10 * risk.nsPerSecond) -
        (101 * risk.nsPerDay - 30 * risk.nsPerSecond) < 60 * risk.nsPerSecond ∧
    (risk.Evaluate ⟨60, 3⟩
        (risk.RecordExecution risk.initState
          (101 * risk.nsPerDay - 30 * risk.nsPerSecond) "TWIFUSDT" 100)
        (101 * risk.nsPerDay + 10 * risk.nsPerSecond) "TWIFUSDT" 100).1 =
      { Allow := true, Reason := "", Notional := 100 } := by
  constructor
  · decide
  · rfl

/-- C4 (amended): with cooldown = 60s and no UTC day rollover pending at the
evaluation (the stored day anchor equals the evaluation instant's UTC day) and
a positive desired notional, an Evaluate whose recorded last execution for the
symbol lies strictly less than 60s in the past denies with "cooldown_active",
and an Evaluate 60s or more after the recorded execution (daily cap not
reached) allows. -/
theorem claimC4 (cfg : risk.RiskConfig) (st : risk.RiskState) (s : String)
    (t0 t : Int) (n : ℚ)
    (hcd : cfg.cooldownSeconds = 60)
    (hlast : risk.lookupKey st.lastTrade s = some t0)
    (hanchor : st.dayAnchor = risk.truncDay t)
    (hn : 0 < n) :
    (t - t0 < 60 * risk.nsPerSecond →
      risk.Evaluate cfg st t s n =
        ({ Allow := false, Reason := "cooldown_active", Notional := 0 }, st)) ∧
    (60 * risk.nsPerSecond ≤ t - t0 →
      (cfg.maxDailyTrades ≤ 0 ∨ st.dailyTrades < cfg.maxDailyTrades) →
      risk.Evaluate cfg st t s n =
        ({ Allow := true, Reason := "", Notional := n }, st)) := by
  have hreset := risk.resetDay_of_anchor_eq st t hanchor
  constructor
  · intro hlt
    simp [risk.Evaluate, not_le.mpr hn, hreset, risk.cooldownBlocked, hcd, hlast, hlt]
  · intro hge hcap
    have hnb : ¬ (t - t0 < 60 * risk.nsPerSecond) := not_lt.mpr hge
    have hcap2 : ¬ (cfg.maxDailyTrades > 0 ∧ st.dailyTrades ≥ cfg.maxDailyTrades) := by
      rcases hcap with h1 | h2
      · exact fun hc => absurd hc.1 (not_lt.mpr h1)
      · exact fun hc => absurd hc.2 (not_le.mpr h2)
    simp [risk.Evaluate, not_le.mpr hn, hreset, risk.cooldownBlocked, hcd, hlast, hnb, hcap2]

/-- C4 witness: a concrete state recorded at 100s into UTC day 101; evaluating
the same symbol 30s later denies with "cooldown_active", evaluating 100s later
allows. -/
theorem claimC4_witness :
    risk.Evaluate ⟨60, 3⟩
        ⟨[("S", 101 * risk.nsPerDay + 100 * risk.nsPerSecond)], 1, 101 * risk.nsPerDay⟩
        (101 * risk.nsPerDay + 130 * risk.nsPerSecond) "S" 5 =
      ({ Allow := false, Reason := "cooldown_active", Notional := 0 },
       ⟨[("S", 101 * risk.nsPerDay + 100 * risk.nsPerSecond)], 1, 101 * risk.nsPerDay⟩) ∧
    risk.Evaluate ⟨60, 3⟩
        ⟨[("S", 101 * risk.nsPerDay + 100 * risk.nsPerSecond)], 1, 101 * risk.nsPerDay⟩
        (101 * risk.nsPerDay + 200 * risk.nsPerSecond) "S" 5 =
      ({ Allow := true, Reason := "", Notional := 5 },
       ⟨[("S", 101 * risk.nsPerDay + 100 * risk.nsPerSecond)], 1, 101 * risk.nsPerDay⟩) := by
  refine ⟨?_, ?_⟩
  · exact (claimC4 ⟨60, 3⟩ _ "S" (101 * risk.nsPerDay + 100 * risk.nsPerSecond)
      (101 * risk.nsPerDay + 130 * risk.nsPerSecond) 5 rfl (by simp [risk.lookupKey])
      (by decide) (by norm_num)).1 (by decide)
  · exact (claimC4 ⟨60, 3⟩ _ "S" (101 * risk.nsPerDay + 100 * risk.nsPerSecond)
      (101 * risk.nsPerDay + 200 * risk.nsPerSecond) 5 rfl (by simp [risk.lookupKey])
      (by decide) (by norm_num)).2 (by decide) (Or.inr (by decide))

/-- C3: with daily cap 3, after three RecordExecution calls within one UTC day
(for any symbols, any anchored day), a further Evaluate in the same day with a
positive notional for a symbol carrying no cooldown timestamp denies with
"daily_trade_limit"; and at the next Evaluate or RecordExecution in a strictly
later UTC day the counter is reset to 0, the timestamp map is cleared, the
anchor is advanced, and the evaluation is allowed. The hypothesis
0 < truncDay t1 states that the anchored day is a real day and not the Go
zero-time sentinel that resetDay treats as "never anchored". -/
theorem claimC3 (cfg : risk.RiskConfig) (s1 s2 s3 s4 : String)
    (t1 t2 t3 t4 t5 : Int) (n n2 : ℚ)
    (hcap : cfg.maxDailyTrades = 3)
    (h12 : risk.truncDay t2 = risk.truncDay t1)
    (h13 : risk.truncDay t3 = risk.truncDay t1)
    (h14 : risk.truncDay t4 = risk.truncDay t1)
    (hpos : 0 < risk.truncDay t1)
    (hs1 : s4 ≠ s1) (hs2 : s4 ≠ s2) (hs3 : s4 ≠ s3)
    (hn : 0 < n)
    (hroll : risk.truncDay t1 < risk.truncDay t5) :
    (risk.Evaluate cfg
        (risk.RecordExecution (risk.RecordExecution
          (risk.RecordExecution risk.initState t1 s1 n2) t2 s2 n2) t3 s3 n2)
        t4 s4 n).1 =
      { Allow := false, Reason := "daily_trade_limit", Notional := 0 } ∧
    risk.Evaluate cfg
        (risk.RecordExecution (risk.RecordExecution
          (risk.RecordExecution risk.initState t1 s1 n2) t2 s2 n2) t3 s3 n2)
        t5 s4 n =
      ({ Allow := true, Reason := "", Notional := n },
       { lastTrade := [], dailyTrades := 0, dayAnchor := risk.truncDay t5 }) ∧
    risk.RecordExecution
        (risk.RecordExecution (risk.RecordExecution
          (risk.RecordExecution risk.initState t1 s1 n2) t2 s2 n2) t3 s3 n2)
        t5 s4 n2 =
      { lastTrade := [(s4, t5)], dailyTrades := 1, dayAnchor := risk.truncDay t5 } := by
  have hne : risk.truncDay t1 ≠ 0 := ne_of_gt hpos
  have e1 : risk.RecordExecution risk.initState t1 s1 n2 =
      ⟨[(s1, t1)], 1, risk.truncDay t1⟩ := by
    simp [risk.RecordExecution, risk.resetDay, risk.initState, risk.mapSet]
  have e2 : risk.RecordExecution (⟨[(s1, t1)], 1, risk.truncDay t1⟩ : risk.RiskState)
      t2 s2 n2 = ⟨risk.mapSet [(s1, t1)] s2 t2, 2, risk.truncDay t1⟩ := by
    simp [risk.RecordExecution, risk.resetDay, hne, h12]
  have e3 : risk.RecordExecution
      (⟨risk.mapSet [(s1, t1)] s2 t2, 2, risk.truncDay t1⟩ : risk.RiskState) t3 s3 n2 =
      ⟨risk.mapSet (risk.mapSet [(s1, t1)] s2 t2) s3 t3, 3, risk.truncDay t1⟩ := by
    simp [risk.RecordExecution, risk.resetDay, hne, h13]
  have hlook : risk.lookupKey (risk.mapSet (risk.mapSet [(s1, t1)] s2 t2) s3 t3) s4 = none := by
    rw [risk.lookupKey_mapSet_ne _ _ _ _ hs3, risk.lookupKey_mapSet_ne _ _ _ _ hs2]
    simp [risk.lookupKey, Ne.symm hs1]
  have hr4 : risk.resetDay
      (⟨risk.mapSet (risk.mapSet [(s1, t1)] s2 t2) s3 t3, 3, risk.truncDay t1⟩ :
        risk.RiskState) t4 =
      ⟨risk.mapSet (risk.mapSet [(s1, t1)] s2 t2) s3 t3, 3, risk.truncDay t1⟩ :=
    risk.resetDay_of_anchor_eq _ _ h14.symm
  have hr5 : risk.resetDay
      (⟨risk.mapSet (risk.mapSet [(s1, t1)] s2 t2) s3 t3, 3, risk.truncDay t1⟩ :
        risk.RiskState) t5 =
      ⟨[], 0, risk.truncDay t5⟩ := by
    simp [risk.resetDay, hne, hroll]
  refine ⟨?_, ?_, ?_⟩
  · rw [e1, e2, e3]
    simp [risk.Evaluate, not_le.mpr hn, hr4, risk.cooldownBlocked, hlook, hcap]
  · rw [e1, e2, e3]
    simp [risk.Evaluate, not_le.mpr hn, hr5, risk.cooldownBlocked, risk.lookupKey, hcap]
  · rw [e1, e2, e3]
    simp only [risk.RecordExecution, hr5]
    simp [risk.mapSet]

/-- C3 witness: cap 3, three executions for symbols "A" "B" "C" during UTC day
101, a denied fourth evaluation for "D" the same day, and an allowed evaluation
plus a fresh record after rolling into day 102. -/
theorem claimC3_witness :
    (risk.Evaluate ⟨60, 3⟩
        (risk.RecordExecution (risk.RecordExecution
          (risk.RecordExecution risk.initState (101 * risk.nsPerDay + 10) "A" 100)
          (101 * risk.nsPerDay + 20) "B" 100) (101 * risk.nsPerDay + 30) "C" 100)
        (101 * risk.nsPerDay + 40) "D" 100).1 =
      { Allow := false, Reason := "daily_trade_limit", Notional := 0 } ∧
    risk.Evaluate ⟨60, 3⟩
        (risk.RecordExecution (risk.RecordExecution
          (risk.RecordExecution risk.initState (101 * risk.nsPerDay + 10) "A" 100)
          (101 * risk.nsPerDay + 20) "B" 100) (101 * risk.nsPerDay + 30) "C" 100)
        (102 * risk.nsPerDay + 40) "D" 100 =
      ({ Allow := true, Reason := "", Notional := 100 },
       { lastTrade := [], dailyTrades := 0,
         dayAnchor := risk.truncDay (102 * risk.nsPerDay + 40) }) ∧
    risk.RecordExecution
        (risk.RecordExecution (risk.RecordExecution
          (risk.RecordExecution risk.initState (101 * risk.nsPerDay + 10) "A" 100)
          (101 * risk.nsPerDay + 20) "B" 100) (101 * risk.nsPerDay + 30) "C" 100)
        (102 * risk.nsPerDay + 40) "D" 100 =
      { lastTrade := [("D", 102 * risk.nsPerDay + 40)], dailyTrades := 1,
        dayAnchor := risk.truncDay (102 * risk.nsPerDay + 40) } :=
  claimC3 ⟨60, 3⟩ "A" "B" "C" "D"
    (101 * risk.nsPerDay + 10) (101 * risk.nsPerDay + 20) (101 * risk.nsPerDay + 30)
    (101 * risk.nsPerDay + 40) (102 * risk.nsPerDay + 40) 100 100
    rfl (by decide) (by decide) (by decide) (by decide)
    (by decide) (by decide) (by decide) (by norm_num) (by decide)

unseal signal.replaceAllAux in
/-- C6: the claim says hyphens and "%5F" are normalized to the separator
before the separator-presence check, so "TWIF-USDT" with separator "_" should
parse. The code performs the check first: at this input parsing fails with the
separator-not-found error, even though normalizing the raw field as the code
comment intends would produce "TWIF_USDT", which contains the separator. -/
theorem claimC6 :
    signal.parseFromPath ⟨"/exchange/".data, "_".data⟩ "/exchange/TWIF-USDT".data =
      .error signal.ParseErr.separatorNotFound ∧
    signal.strContains (signal.goToUpper "TWIF-USDT".data) (signal.goToUpper "_".data) = false ∧
    signal.replaceAll (signal.goToUpper "TWIF-USDT".data) "-".data "_".data =
      "TWIF_USDT".data := by
  refine ⟨?_, ?_, ?_⟩ <;> decide

unseal signal.replaceAllAux in
/-- C7 counterexample: with configured separator "x" and link path "/p/AXB-C",
parsing succeeds with Symbol "AXBC" and PairCode "AXBXC", but removing the
separator from the returned PairCode yields "AXBXC", not the Symbol: the final
uppercasing erases the lowercase separator occurrences that the hyphen
normalization inserted, so the claimed round-trip fails. -/
theorem claimC7_counterexample :
    signal.parseFromPath ⟨"/p/".data, "x".data⟩ "/p/AXB-C".data =
      .ok ⟨"AXBC".data, "AXBXC".data⟩ ∧
    signal.replaceAll "AXBXC".data "x".data [] ≠ "AXBC".data := by
  refine ⟨?_, ?_⟩ <;> decide

/-- C7 (amended): for every successful parse whose configured separator is
invariant under uppercasing (as "_" and every other non-lowercase separator
is), the returned signal satisfies Symbol = uppercase(PairCode) with every
separator occurrence removed, Symbol is non-empty, and the round-trip holds:
removing the separator from the returned PairCode reproduces Symbol. -/
theorem claimC7 (cfg : signal.ParserConfigM) (path : List Char) (sig : signal.Signal)
    (hsep : signal.goToUpper cfg.PairSeparator = cfg.PairSeparator)
    (h : signal.parseFromPath cfg path = .ok sig) :
    sig.Symbol = signal.replaceAll (signal.goToUpper sig.PairCode) cfg.PairSeparator [] ∧
    sig.Symbol ≠ [] ∧
    signal.replaceAll sig.PairCode cfg.PairSeparator [] = sig.Symbol := by
  cases hrp : signal.resolvePair cfg path with
  | error e =>
    simp [signal.parseFromPath, hrp] at h
  | ok pc =>
    simp only [signal.parseFromPath, hrp] at h
    by_cases hne : signal.goToUpper (signal.replaceAll pc cfg.PairSeparator []) = []
    · rw [if_pos hne] at h
      exact absurd h (by simp)
    · rw [if_neg hne] at h
      have hsig := (Except.ok.inj h).symm
      subst hsig
      have hfix := signal.resolvePair_chars_fixed hsep hrp
      have hup_pc : signal.goToUpper pc = pc := signal.goToUpper_of_fixed hfix
      have hfix2 : ∀ c ∈ signal.replaceAll pc cfg.PairSeparator [], c.toUpper = c := by
        intro c hc
        rcases signal.mem_replaceAll hc with h1 | h2
        · exact hfix c h1
        · simp at h2
      have hup_sym : signal.goToUpper (signal.replaceAll pc cfg.PairSeparator []) =
          signal.replaceAll pc cfg.PairSeparator [] := signal.goToUpper_of_fixed hfix2
      refine ⟨?_, hne, ?_⟩
      · show signal.goToUpper (signal.replaceAll pc cfg.PairSeparator []) =
          signal.replaceAll (signal.goToUpper (signal.goToUpper pc)) cfg.PairSeparator []
        rw [signal.goToUpper_idem, hup_pc, hup_sym]
      · show signal.replaceAll (signal.goToUpper pc) cfg.PairSeparator [] =
          signal.goToUpper (signal.replaceAll pc cfg.PairSeparator [])
        rw [hup_pc, hup_sym]

unseal signal.replaceAllAux in
/-- C7 witness: the reference input "/exchange/TWIF_USDT" with separator "_"
parses to Symbol "TWIFUSDT" and PairCode "TWIF_USDT", and the derivation and
round-trip equalities hold there. -/
theorem claimC7_witness :
    "TWIFUSDT".data =
      signal.replaceAll (signal.goToUpper "TWIF_USDT".data) "_".data [] ∧
    "TWIFUSDT".data ≠ [] ∧
    signal.replaceAll "TWIF_USDT".data "_".data [] = "TWIFUSDT".data :=
  claimC7 ⟨"/exchange/".data, "_".data⟩ "/exchange/TWIF_USDT".data
    ⟨"TWIFUSDT".data, "TWIF_USDT".data⟩ (by decide) (by decide)

/-- C1 counterexample: a transport-200 response whose decoded payload carries
the non-zero embedded code 200 is returned as a successful acknowledgement,
not a rejection: the implementation accepts both 0 and 200 as embedded
success codes, so "non-zero implies rejection" fails as stated. -/
theorem claimC1_counterexample :
    mexc.interpretSpotResponse 200
        (some { OrderID := "ord-1", TransactTime := 1710000000000, Code := 200, Msg := "ok" }) =
      .ok { OrderID := "ord-1", SubmittedAt := 1710000000000 } ∧
    (200 : Int) ≠ 0 := by
  exact ⟨rfl, by decide⟩

/-- C1 (amended): for every transport-200 response whose decoded payload
carries an embedded code that is non-zero and also not the embedded "ok" code
200, submitSpot returns a rejection error carrying the embedded message and
code, never a successful acknowledgement. -/
theorem claimC1 (b : mexc.orderResponse) (h0 : b.Code ≠ 0) (h200 : b.Code ≠ 200) :
    mexc.interpretSpotResponse 200 (some b) =
      .error ("order error: " ++ b.Msg ++ " (" ++ toString b.Code ++ ")") := by
  simp [mexc.interpretSpotResponse, h0, h200]

/-- C1 witness: a 200 response embedding the MEXC error code 30004 is a
rejection. -/
theorem claimC1_witness :
    mexc.interpretSpotResponse 200 (some { Msg := "Insufficient balance", Code := 30004 }) =
      .error "order error: Insufficient balance (30004)" := by
  have h := claimC1 { Msg := "Insufficient balance", Code := 30004 } (by decide) (by decide)
  exact h.trans (by decide)

/-- C2: across all collaborator outcomes, Engine.HandleMessage runs
RecordExecution exactly once precisely when parsing succeeded, the risk
decision allowed, and submission succeeded; it runs it zero times otherwise;
a parse failure returns a wrapped error with no record; a risk denial returns
nil (a normal outcome, not an error) with no record; a submission failure
returns a wrapped error with no record. -/
theorem claimC2 (p : Except String String) (e : Except String risk.Decision)
    (s : Except String exchange.OrderAck) :
    ((engine.handleMessage p e s).2 = 1 ↔
      (∃ sym, p = .ok sym) ∧ (∃ d, e = .ok d ∧ d.Allow = true) ∧ (∃ a, s = .ok a)) ∧
    ((engine.handleMessage p e s).2 = 0 ∨ (engine.handleMessage p e s).2 = 1) ∧
    (∀ msg, p = .error msg →
      engine.handleMessage p e s = (.err ("parse signal: " ++ msg), 0)) ∧
    (∀ sym d, p = .ok sym → e = .ok d → d.Allow = false →
      engine.handleMessage p e s = (.ok, 0)) ∧
    (∀ sym d msg, p = .ok sym → e = .ok d → d.Allow = true → s = .error msg →
      engine.handleMessage p e s = (.err ("order submission failed: " ++ msg), 0)) := by
  rcases p with pe | psym
  · simp [engine.handleMessage]
  · rcases e with ee | d
    · simp [engine.handleMessage]
    · rcases s with se | ack
      · by_cases hd : d.Allow
        · simp [engine.handleMessage, hd]
          intro _ _ msg _ _ _ hmsg
          rw [hmsg]
        · simp [engine.handleMessage, hd]
          intro _ d2 _ _ hdd hda
          exact absurd (by rw [hdd]; exact hda) hd
      · by_cases hd : d.Allow <;> simp [engine.handleMessage, hd]

/-- C2 witness: on the all-success path the record counter is 1; on a parse
failure the outcome is the wrapped parse error with no record. -/
theorem claimC2_witness :
    (engine.handleMessage (.ok "TWIFUSDT") (.ok { Allow := true, Reason := "", Notional := 50 })
      (.ok { OrderID := "42", SubmittedAt := 1710000000000 })).2 = 1 ∧
    engine.handleMessage (.error "required template token missing")
        (.ok { Allow := true, Reason := "", Notional := 50 })
        (.ok { OrderID := "42", SubmittedAt := 1710000000000 }) =
      (.err "parse signal: required template token missing", 0) := by
  constructor
  · exact (claimC2 _ _ _).1.mpr ⟨⟨_, rfl⟩, ⟨_, rfl, rfl⟩, ⟨_, rfl⟩⟩
  · exact ((claimC2 _ _ _).2.2.1 _ rfl).trans (by decide)

/-- C8: Engine.resolveNotional at the spec's reference configuration (default
100, override default 150, override max 120, global max 500) yields 120, and
in general the result never exceeds the global maximum, nor a positive
per-symbol override maximum when such an override exists. -/
theorem claimC8 (trading : engine.TradingConfig)
    (overrides : List (String × engine.AssetConfig)) (symbol : String) :
    engine.resolveNotional { DefaultBaseNotional := 100, MaxNotional := 500 }
        [("TWIFUSDT", { MaxNotional := 120, DefaultBaseNotional := 150 })] "TWIFUSDT" = 120 ∧
    engine.resolveNotional trading overrides symbol ≤ trading.MaxNotional ∧
    (∀ ov, risk.lookupKey overrides symbol = some ov → 0 < ov.MaxNotional →
      engine.resolveNotional trading overrides symbol ≤ ov.MaxNotional) := by
  refine ⟨by decide, ?_, ?_⟩
  · simp only [engine.resolveNotional]
    rcases h : risk.lookupKey overrides symbol with _ | ov <;>
      simp only [h] <;> split_ifs <;> linarith
  · intro ov hov hpos
    simp only [engine.resolveNotional, hov]
    by_cases hc2 : ov.MaxNotional > 0 ∧
        (if ov.DefaultBaseNotional > 0 then ov.DefaultBaseNotional
         else trading.DefaultBaseNotional) > ov.MaxNotional
    · rw [if_pos hc2]
      split_ifs with h3
      · linarith [hc2.1]
      · linarith
    · rw [if_neg hc2]
      push_neg at hc2
      have hle := hc2 hpos
      split_ifs at hle ⊢ <;> linarith

/-- C8 witness: at the reference configuration the resolved notional 120
respects the override cap 120. -/
theorem claimC8_witness :
    engine.resolveNotional { DefaultBaseNotional := 100, MaxNotional := 500 }
        [("TWIFUSDT", { MaxNotional := 120, DefaultBaseNotional := 150 })] "TWIFUSDT" ≤ 120 :=
  (claimC8 { DefaultBaseNotional := 100, MaxNotional := 500 }
      [("TWIFUSDT", { MaxNotional := 120, DefaultBaseNotional := 150 })] "TWIFUSDT").2.2
    { MaxNotional := 120, DefaultBaseNotional := 150 } (by decide) (by norm_num)

theorem mergeSortStr_eq_of_perm {l1 l2 : List String} (h : l1.Perm l2) :
    l1.mergeSort = l2.mergeSort := by
  haveI : IsTotal String (· ≤ ·) := ⟨fun a b => le_total a b⟩
  haveI : IsTrans String (· ≤ ·) := ⟨fun _ _ _ => le_trans⟩
  haveI : IsAntisymm String (· ≤ ·) := ⟨fun _ _ => le_antisymm⟩
  exact List.eq_of_perm_of_sorted
    ((List.mergeSort_perm l1 _).trans (h.trans (List.mergeSort_perm l2 _).symm))
    (List.sorted_mergeSort' _) (List.sorted_mergeSort' _)

theorem lookupKey_perm_eq {β : Type} {l1 l2 : List (String × β)} (h : l1.Perm l2)
    (nd : (l1.map Prod.fst).Nodup) (k : String) :
    risk.lookupKey l1 k = risk.lookupKey l2 k := by
  induction h with
  | nil => rfl
  | cons x h12 ih =>
    obtain ⟨kx, vx⟩ := x
    simp only [List.map_cons, List.nodup_cons] at nd
    simp only [risk.lookupKey]
    by_cases hk : kx = k
    · simp [hk]
    · simp [hk, ih nd.2]
  | swap x y l =>
    obtain ⟨kx, vx⟩ := x
    obtain ⟨ky, vy⟩ := y
    simp only [List.map_cons, List.nodup_cons, List.mem_cons] at nd
    have hxy : ky ≠ kx := fun hh => nd.1 (Or.inl hh)
    simp only [risk.lookupKey]
    by_cases hk1 : ky = k
    · rw [if_pos hk1, if_neg (hk1 ▸ (fun hh => hxy hh.symm) : ¬kx = k), if_pos hk1]
    · by_cases hk2 : kx = k
      · rw [if_neg hk1, if_pos hk2, if_pos hk2]
      · rw [if_neg hk1, if_neg hk2, if_neg hk2, if_neg hk1]
  | trans h12 h23 ih1 ih2 =>
    have nd2 := ((h12.map Prod.fst).nodup_iff).mp nd
    exact (ih1 nd).trans (ih2 nd2)

/-- C9: canonicalQuery is a deterministic function of the parameter set. For
any two iteration orders of the same key/value map (a permutation with
duplicate-free keys) the canonical query strings coincide, hence so do the
signature (for every deterministic signer, in particular HMAC-SHA256 under
the account secret) and the signed request body. -/
theorem claimC9 (p1 p2 : List (String × String)) (signFn : String → String)
    (hperm : p1.Perm p2) (hnd : (p1.map Prod.fst).Nodup) :
    mexc.canonicalQuery p1 = mexc.canonicalQuery p2 ∧
    signFn (mexc.canonicalQuery p1) = signFn (mexc.canonicalQuery p2) ∧
    mexc.requestBody signFn p1 = mexc.requestBody signFn p2 := by
  have hq : mexc.canonicalQuery p1 = mexc.canonicalQuery p2 := by
    have hl : ∀ k, mexc.lookupParam p1 k = mexc.lookupParam p2 k := by
      intro k
      unfold mexc.lookupParam
      rw [lookupKey_perm_eq hperm hnd k]
    have hkeys : (p1.map Prod.fst).mergeSort = (p2.map Prod.fst).mergeSort :=
      mergeSortStr_eq_of_perm (hperm.map Prod.fst)
    simp only [mexc.canonicalQuery, hkeys, hl]
  exact ⟨hq, by rw [hq], by unfold mexc.requestBody; rw [hq]⟩

/-- C9 witness: two insertion orders of the same two-parameter map produce the
same canonical query, signature and body (signer instantiated with the
identity function). -/
theorem claimC9_witness :
    mexc.canonicalQuery [("symbol", "TWIFUSDT"), ("side", "BUY")] =
      mexc.canonicalQuery [("side", "BUY"), ("symbol", "TWIFUSDT")] ∧
    (fun q => q) (mexc.canonicalQuery [("symbol", "TWIFUSDT"), ("side", "BUY")]) =
      (fun q => q) (mexc.canonicalQuery [("side", "BUY"), ("symbol", "TWIFUSDT")]) ∧
    mexc.requestBody (fun q => q) [("symbol", "TWIFUSDT"), ("side", "BUY")] =
      mexc.requestBody (fun q => q) [("side", "BUY"), ("symbol", "TWIFUSDT")] :=
  claimC9 [("symbol", "TWIFUSDT"), ("side", "BUY")]
    [("side", "BUY"), ("symbol", "TWIFUSDT")] (fun q => q) (by decide) (by decide)

/-- C10: the live executor's Submit rejects every non-"spot" market type with
the not-yet-supported error, independently of any exchange response (so no
request is built and no network call interpreted), even though configuration
validation accepts market_type "futures". -/
theorem claimC10 (market : String) (h : market ≠ "spot") :
    (∀ statusCode body, mexc.Submit market statusCode body =
      .error ("market " ++ market ++ " not yet supported")) ∧
    config.marketTypeValid "futures" = true := by
  refine ⟨?_, rfl⟩
  intro statusCode body
  simp [mexc.Submit, h]

/-- C10 witness: a futures-configured executor refuses to submit regardless of
any response data, while "futures" passes config validation. -/
theorem claimC10_witness :
    mexc.Submit "futures" 200 none = .error "market futures not yet supported" ∧
    config.marketTypeValid "futures" = true := by
  have h := claimC10 "futures" (by decide)
  exact ⟨(h.1 200 none).trans (by decide), h.2⟩
